import Mathlib

/-!
Shallow embedding of the `intel-spi` driver (system76/intel-spi).

The register encoding (`HsfStsCtl`), the hardware-sequencing cycle engine
(`SpiRegs.read` / `SpiRegs.erase` / `SpiRegs.write` / `SpiRegs.len`), the
derived page-rounding mapper operations (`Mapper.map` / `Mapper.unmap`), the
device locator (`SpiDev.new`) and the sector reconcile stage of the flashing
utility (`main.rs`) are translated to Lean functions over `Nat`.

Machine integers are `Nat` with explicit masking where the Rust code
truncates: `u32` registers are values below `2^32`, `u8` bytes below `2^8`.
The unbounded polling loops of the driver are given an explicit fuel
argument; exhausting the fuel yields `none`.  MMIO reads and writes act on
an explicit `Device` state that models the simulated register file of the
specification: writing HSFSTS_CTL with FGO set executes the programmed
flash cycle.
-/

namespace IntelSpi

/-- The `SpiError` from `lib.rs`. -/
inductive SpiError where
  | Access
  | Cycle
  | Register
deriving DecidableEq

namespace HsfStsCtl

/-- Flash Cycle Done (bit 0). -/
def FDONE : Nat := 1 <<< 0
/-- Flash Cycle Error (bit 1). -/
def FCERR : Nat := 1 <<< 1
/-- Access Error Log (bit 2). -/
def H_AEL : Nat := 1 <<< 2
/-- SPI Cycle In Progress (bit 5). -/
def H_SCIP : Nat := 1 <<< 5
/-- Write Status Disable (bit 11). -/
def WRSDIS : Nat := 1 <<< 11
/-- PRR3 PRR4 Lock-Down (bit 12). -/
def PRR34_LOCKDN : Nat := 1 <<< 12
/-- Flash Descriptor Override Pin-Strap Status (bit 13). -/
def FDOPSS : Nat := 1 <<< 13
/-- Flash Descriptor Valid (bit 14). -/
def FDV : Nat := 1 <<< 14
/-- Flash Configuration Lock-Down (bit 15). -/
def FLOCKDN : Nat := 1 <<< 15
/-- Flash Cycle Go (bit 16). -/
def FGO : Nat := 1 <<< 16
/-- Flash Cycle (bits 20:17). -/
def FCYCLE : Nat := 0b1111 <<< 17
/-- Write Enable Type (bit 21). -/
def WET : Nat := 1 <<< 21
/-- Flash Data Byte Count, programmed with count minus one (bits 29:24). -/
def FDBC : Nat := 0b111111 <<< 24
/-- Flash SPI SMI# Enable (bit 31). -/
def FSMIE : Nat := 1 <<< 31

/-- The union of all flag bits declared by the `bitflags!` block; this is
the mask `from_bits_truncate` keeps. -/
def DEFINED : Nat :=
  FDONE ||| FCERR ||| H_AEL ||| H_SCIP ||| WRSDIS ||| PRR34_LOCKDN |||
  FDOPSS ||| FDV ||| FLOCKDN ||| FGO ||| FCYCLE ||| WET ||| FDBC ||| FSMIE

/-- All ones in 32 bits; `!flag` on a raw `u32` is `U32MASK ^^^ flag`. -/
def U32MASK : Nat := 0xFFFFFFFF

/-- The `HsfStsCtl::from_bits_truncate`: keep only the declared flag bits. -/
def truncate (v : Nat) : Nat := v &&& DEFINED

/-- The `bitflags` `contains`: all bits of `flag` are present in `v`. -/
def contains (v flag : Nat) : Bool := v &&& flag = flag

/-- The `bitflags` `insert`: set the bits of `flag`. -/
def insert (v flag : Nat) : Nat := v ||| flag

/-- The `HsfStsCtl::sanitize` from `lib.rs`: the five `remove` calls clearing
FGO, FCYCLE, WET, FDBC and FSMIE in order (`remove` is a raw and-not). -/
def sanitize (v : Nat) : Nat :=
  ((((v &&& (U32MASK ^^^ FGO))
      &&& (U32MASK ^^^ FCYCLE))
      &&& (U32MASK ^^^ WET))
      &&& (U32MASK ^^^ FDBC))
      &&& (U32MASK ^^^ FSMIE)

/-- The `HsfStsCtl::cycle`: the raw FCYCLE subfield. -/
def cycle (v : Nat) : Nat := v &&& FCYCLE

/-- The `HsfStsCtl::set_cycle`: `(*self & !FCYCLE) | from_bits_truncate(op)`
(`!` on a `bitflags` value complements within the declared bits). -/
def set_cycle (v op : Nat) : Nat :=
  (v &&& (DEFINED ^^^ FCYCLE)) ||| (op &&& DEFINED)

/-- The `HsfStsCtl::count`: `(((*self & FDBC).bits() >> 24) + 1) as u8`. -/
def count (v : Nat) : Nat := (((v &&& FDBC) >>> 24) + 1) % 256

/-- The `HsfStsCtl::set_count` from `lib.rs`, exactly as written there:
`(*self & !FDBC) | from_bits_truncate((cmp::max(value, 64).saturating_sub(1) as u32) << 24)`.
Note the source uses `cmp::max`, not `cmp::min`. -/
def set_count (v value : Nat) : Nat :=
  (v &&& (DEFINED ^^^ FDBC)) ||| (((max value 64 - 1) <<< 24) &&& DEFINED)

end HsfStsCtl

namespace HsfStsCtlCycle

/-- Read number of bytes in FDBC plus one. -/
def Read : Nat := 0x0 <<< 17
/-- Reserved, treated as a read. -/
def Rsvd : Nat := 0x1 <<< 17
/-- Write number of bytes in FDBC plus one. -/
def Write : Nat := 0x2 <<< 17
/-- Erase 4096 bytes. -/
def BlockErase : Nat := 0x3 <<< 17
/-- Erase 65536 bytes. -/
def SectorErase : Nat := 0x4 <<< 17
/-- Read SFDP. -/
def ReadSfdp : Nat := 0x5 <<< 17
/-- Read JEDEC ID. -/
def ReadJedec : Nat := 0x6 <<< 17
/-- Write status. -/
def WriteStatus : Nat := 0x7 <<< 17
/-- Read status. -/
def ReadStatus : Nat := 0x8 <<< 17
/-- RPMC Op1. -/
def RpmcOp1 : Nat := 0x9 <<< 17
/-- RPMC Op2. -/
def RpmcOp2 : Nat := 0xA <<< 17

end HsfStsCtlCycle

namespace FdoSection

/-- Descriptor map section selector. -/
def Map : Nat := 0b000 <<< 12
/-- Component section selector. -/
def Component : Nat := 0b001 <<< 12
/-- Region section selector. -/
def Region : Nat := 0b010 <<< 12
/-- Master section selector. -/
def Master : Nat := 0b011 <<< 12

end FdoSection

/-- One MMIO register write issued by the driver, for observing the
programming sequence of a cycle. -/
inductive RegWrite where
  | hsf (v : Nat)
  | faddr (v : Nat)
  | fdata (i v : Nat)
  | fdoc (v : Nat)
deriving DecidableEq

/-- The simulated register file and flash device the driver runs against.
`flash` maps a linear flash address to the byte stored there; `fdata` maps a
FDATA register index to its 32-bit contents.  When `failCycle` is set the
device asserts FCERR instead of completing a programmed cycle (scenario S3
of the specification). -/
structure Device where
  hsfsts : Nat
  faddr : Nat
  fdata : Nat → Nat
  fdoc : Nat
  fdod : Nat
  flash : Nat → Nat
  failCycle : Bool
  log : List RegWrite

/-- Device reaction to a HSFSTS_CTL write whose FGO bit is set: decode
FCYCLE and FDBC, execute the cycle against the modelled flash, clear FGO and
report FDONE (or FCERR when `failCycle`).  Erase sets 4096 bytes to `0xFF`;
a write cycle programs bits from 1 to 0 only (`&&&`). -/
def execCycle (dev : Device) (v : Nat) : Device :=
  let base := dev.faddr
  let cyc := (v >>> 17) &&& 0xF
  let cnt := ((v >>> 24) &&& 0x3F) + 1
  let vDone := v &&& (HsfStsCtl.U32MASK ^^^ HsfStsCtl.FGO)
  if dev.failCycle then
    { dev with hsfsts := vDone ||| HsfStsCtl.FCERR }
  else if cyc = 0x0 then
    { dev with
      hsfsts := vDone ||| HsfStsCtl.FDONE,
      fdata := fun i =>
        (dev.flash (base + 4 * i) &&& 0xFF) |||
        ((dev.flash (base + 4 * i + 1) &&& 0xFF) <<< 8) |||
        ((dev.flash (base + 4 * i + 2) &&& 0xFF) <<< 16) |||
        ((dev.flash (base + 4 * i + 3) &&& 0xFF) <<< 24) }
  else if cyc = 0x2 then
    { dev with
      hsfsts := vDone ||| HsfStsCtl.FDONE,
      flash := fun a =>
        if base ≤ a ∧ a < base + cnt then
          dev.flash a &&& ((dev.fdata ((a - base) / 4) >>> (((a - base) % 4) * 8)) &&& 0xFF)
        else dev.flash a }
  else if cyc = 0x3 then
    { dev with
      hsfsts := vDone ||| HsfStsCtl.FDONE,
      flash := fun a => if base ≤ a ∧ a < base + 4096 then 0xFF else dev.flash a }
  else
    { dev with hsfsts := vDone ||| HsfStsCtl.FDONE }

namespace SpiRegs

/-- The `SpiRegs::hsfsts_ctl`: volatile read then `from_bits_truncate`. -/
def hsfsts_ctl (dev : Device) : Nat := HsfStsCtl.truncate dev.hsfsts

/-- The `SpiRegs::set_hsfsts_ctl`: volatile write of the flag bits.  The device
model starts a cycle when the written value has FGO set. -/
def set_hsfsts_ctl (dev : Device) (v : Nat) : Device :=
  let dev' : Device := { dev with log := dev.log ++ [RegWrite.hsf v] }
  if v.testBit 16 then execCycle dev' v else { dev' with hsfsts := v }

/-- Volatile write of the FADDR register (`self.faddr.write(..)`). -/
def set_faddr (dev : Device) (v : Nat) : Device :=
  { dev with faddr := v, log := dev.log ++ [RegWrite.faddr v] }

/-- Volatile write of one FDATA register (`self.fdata[i].write(data)`). -/
def set_fdata (dev : Device) (i v : Nat) : Device :=
  { dev with fdata := fun j => if j = i then v else dev.fdata j,
             log := dev.log ++ [RegWrite.fdata i v] }

/-- The `SpiRegs::fdo`: write FDOC with `section | ((index & 0b1111111111) << 2)`,
then read FDOD. -/
def fdo (dev : Device) (sec index : Nat) : Device × Nat :=
  let v := sec ||| ((index &&& 0b1111111111) <<< 2)
  ({ dev with fdoc := v, log := dev.log ++ [RegWrite.fdoc v] }, dev.fdod)

/-- The `Spi::len for SpiRegs`: FDO indirect read of component 0, decoding the
low three bits of FDOD as a power-of-two multiple of 512 KiB. -/
def len (dev : Device) : Device × Except SpiError Nat :=
  let kib := 1024
  let mib := 1024 * kib
  let p := fdo dev FdoSection.Component 0
  (p.1,
    match p.2 &&& 0b111 with
    | 0b000 => Except.ok (512 * kib)
    | 0b001 => Except.ok mib
    | 0b010 => Except.ok (2 * mib)
    | 0b011 => Except.ok (4 * mib)
    | 0b100 => Except.ok (8 * mib)
    | 0b101 => Except.ok (16 * mib)
    | 0b110 => Except.ok (32 * mib)
    | 0b111 => Except.ok (64 * mib)
    | _ => Except.error SpiError.Register)

/-- The wait-for-other-transactions loop: read HSFSTS_CTL until H_SCIP is
clear, returning the last value read.  `fuel` bounds the spinning. -/
def waitIdle : Nat → Device → Option Nat
  | 0, _ => none
  | fuel + 1, dev =>
    let h := hsfsts_ctl dev
    if HsfStsCtl.contains h HsfStsCtl.H_SCIP then waitIdle fuel dev else some h

/-- The wait-for-command-to-finish loop: read HSFSTS_CTL until FCERR or
FDONE is observed; the returned flag is `true` on FCERR. -/
def pollComplete : Nat → Device → Option (Nat × Bool)
  | 0, _ => none
  | fuel + 1, dev =>
    let h := hsfsts_ctl dev
    if HsfStsCtl.contains h HsfStsCtl.FCERR then some (h, true)
    else if HsfStsCtl.contains h HsfStsCtl.FDONE then some (h, false)
    else pollComplete fuel dev

/-- The drain loop of `SpiRegs::read`: for byte `k` of the chunk, read
FDATA register `k / 4` and take byte `k % 4`, little-endian. -/
def drainChunk (dev : Device) (n : Nat) : List Nat :=
  (List.range n).map (fun k => (dev.fdata (k / 4) >>> ((k % 4) * 8)) &&& 0xFF)

/-- Little-endian packing of up to four chunk bytes into the 32-bit word
destined for FDATA register `i` (the inner loop of the fill loop). -/
def packWord (chunk : List Nat) (i : Nat) : Nat :=
  ((chunk.getD (4 * i) 0 &&& 0xFF)) |||
  ((chunk.getD (4 * i + 1) 0 &&& 0xFF) <<< 8) |||
  ((chunk.getD (4 * i + 2) 0 &&& 0xFF) <<< 16) |||
  ((chunk.getD (4 * i + 3) 0 &&& 0xFF) <<< 24)

/-- The fill loop of `SpiRegs::write`: pack chunk bytes little-endian into
32-bit words and write them to FDATA registers `0 .. ⌈len/4⌉`. -/
def fillChunk (dev : Device) (chunk : List Nat) : Device :=
  (List.range ((chunk.length + 3) / 4)).foldl
    (fun d i => set_fdata d i (packWord chunk i)) dev

/-- One chunk iteration of `SpiRegs::read` plus the recursion over the
remaining chunks; `chunkFuel` bounds the number of chunks and `fuel` the two
polling loops.  Mirrors `lib.rs` lines 367-420. -/
def readGo (fuel : Nat) :
    Nat → Device → Nat → Nat → Nat → Option (Device × Except SpiError (List Nat))
  | 0, dev, _, _, remaining =>
    if remaining = 0 then some (dev, Except.ok []) else none
  | chunkFuel + 1, dev, address, cnt, remaining =>
    if remaining = 0 then some (dev, Except.ok []) else
    let chunkLen := min 64 remaining
    match waitIdle fuel dev with
    | none => none
    | some h =>
      let h1 := HsfStsCtl.sanitize h
      let dev := set_hsfsts_ctl dev h1
      let h2 := HsfStsCtl.insert
        (HsfStsCtl.set_count (HsfStsCtl.set_cycle h1 HsfStsCtlCycle.Read) chunkLen)
        HsfStsCtl.FGO
      let dev := set_faddr dev ((address + cnt) &&& 0xFFFFFFFF)
      let dev := set_hsfsts_ctl dev h2
      match pollComplete fuel dev with
      | none => none
      | some (hp, true) =>
        let dev := set_hsfsts_ctl dev (HsfStsCtl.sanitize hp)
        some (dev, Except.error SpiError.Cycle)
      | some (hp, false) =>
        let bytes := drainChunk dev chunkLen
        let dev := set_hsfsts_ctl dev (HsfStsCtl.sanitize hp)
        match readGo fuel chunkFuel dev address (cnt + chunkLen) (remaining - chunkLen) with
        | none => none
        | some (dev2, Except.error e) => some (dev2, Except.error e)
        | some (dev2, Except.ok rest) => some (dev2, Except.ok (bytes ++ rest))

/-- The `Spi::read for SpiRegs`: chunk the destination buffer (given by its
length) into at most 64-byte segments and drive one Read cycle per chunk. -/
def read (fuel : Nat) (dev : Device) (address bufLen : Nat) :
    Option (Device × Except SpiError (List Nat)) :=
  readGo fuel bufLen dev address 0 bufLen

/-- The `Spi::erase for SpiRegs` (`lib.rs` lines 422-463): one BlockErase cycle
at `address`, no byte count programmed. -/
def erase (fuel : Nat) (dev : Device) (address : Nat) :
    Option (Device × Except SpiError Unit) :=
  match waitIdle fuel dev with
  | none => none
  | some h =>
    let h1 := HsfStsCtl.sanitize h
    let dev := set_hsfsts_ctl dev h1
    let h2 := HsfStsCtl.insert (HsfStsCtl.set_cycle h1 HsfStsCtlCycle.BlockErase)
      HsfStsCtl.FGO
    let dev := set_faddr dev (address &&& 0xFFFFFFFF)
    let dev := set_hsfsts_ctl dev h2
    match pollComplete fuel dev with
    | none => none
    | some (hp, true) =>
      let dev := set_hsfsts_ctl dev (HsfStsCtl.sanitize hp)
      some (dev, Except.error SpiError.Cycle)
    | some (hp, false) =>
      let dev := set_hsfsts_ctl dev (HsfStsCtl.sanitize hp)
      some (dev, Except.ok ())

/-- One chunk iteration of `SpiRegs::write` plus the recursion over the
remaining chunks (`lib.rs` lines 465-520): fill FDATA, program a Write
cycle, poll to completion. -/
def writeGo (fuel : Nat) :
    Nat → Device → Nat → Nat → List Nat → Option (Device × Except SpiError Nat)
  | 0, dev, _, cnt, buf =>
    if buf = [] then some (dev, Except.ok cnt) else none
  | chunkFuel + 1, dev, address, cnt, buf =>
    if buf = [] then some (dev, Except.ok cnt) else
    let chunk := buf.take 64
    match waitIdle fuel dev with
    | none => none
    | some h =>
      let h1 := HsfStsCtl.sanitize h
      let dev := set_hsfsts_ctl dev h1
      let h2 := HsfStsCtl.insert
        (HsfStsCtl.set_count (HsfStsCtl.set_cycle h1 HsfStsCtlCycle.Write) chunk.length)
        HsfStsCtl.FGO
      let dev := fillChunk dev chunk
      let dev := set_faddr dev ((address + cnt) &&& 0xFFFFFFFF)
      let dev := set_hsfsts_ctl dev h2
      match pollComplete fuel dev with
      | none => none
      | some (hp, true) =>
        let dev := set_hsfsts_ctl dev (HsfStsCtl.sanitize hp)
        some (dev, Except.error SpiError.Cycle)
      | some (hp, false) =>
        let dev := set_hsfsts_ctl dev (HsfStsCtl.sanitize hp)
        writeGo fuel chunkFuel dev address (cnt + chunk.length) (buf.drop 64)

/-- The `Spi::write for SpiRegs`: chunk the source buffer into at most 64-byte
segments and drive one Write cycle per chunk, returning the byte count. -/
def write (fuel : Nat) (dev : Device) (address : Nat) (buf : List Nat) :
    Option (Device × Except SpiError Nat) :=
  writeGo fuel buf.length dev address 0 buf

end SpiRegs

/-- The `Mapper` trait of `mapper.rs`: the host's aligned primitives and the
page size.  The primitives are abstract function fields; the derived `map`
and `unmap` below are the trait's provided methods. -/
structure Mapper where
  map_aligned : Nat → Nat → Except String Nat
  unmap_aligned : Nat → Nat → Except String Unit
  page_size : Nat

/-- The `Mapper::map` from `mapper.rs`: round the physical address down to a
page boundary, round the length up to whole pages, forward to
`map_aligned`, and offset the returned virtual address back. -/
def Mapper.map (m : Mapper) (address size : Nat) : Except String Nat :=
  let page_size := m.page_size
  let page := address / page_size
  let aligned_address := page * page_size
  let offset := address - aligned_address
  let pages := (offset + size + page_size - 1) / page_size
  let aligned_size := pages * page_size
  match m.map_aligned aligned_address aligned_size with
  | Except.error e => Except.error e
  | Except.ok virtual_address => Except.ok (virtual_address + offset)

/-- The `Mapper::unmap` from `mapper.rs`: the same rounding, forwarded to
`unmap_aligned`. -/
def Mapper.unmap (m : Mapper) (address size : Nat) : Except String Unit :=
  let page_size := m.page_size
  let page := address / page_size
  let aligned_address := page * page_size
  let offset := address - aligned_address
  let pages := (offset + size + page_size - 1) / page_size
  let aligned_size := pages * page_size
  m.unmap_aligned aligned_address aligned_size

/-- The `PCI_IDS` from `lib.rs`, verbatim (including the duplicated
Cannon Lake-H entry). -/
def PCI_IDS : List (Nat × Nat) :=
  [(0x8086, 0x02A4),
   (0x8086, 0x06A4),
   (0x8086, 0x43A4),
   (0x8086, 0x51A4),
   (0x8086, 0x7723),
   (0x8086, 0x7A24),
   (0x8086, 0x7E23),
   (0x8086, 0x9DA4),
   (0x8086, 0xA0A4),
   (0x8086, 0xA324),
   (0x8086, 0xA324)]

/-- The mapper used by the device-locator model: it records every `map` and
`unmap` call and maps a physical region to the identity virtual address, so
reads through the mapping read physical memory directly. -/
structure MapperState where
  maps : List (Nat × Nat)
  unmaps : List (Nat × Nat)
deriving DecidableEq

/-- Record a `map` call and return the (identity) virtual address. -/
def MapperState.mapCall (m : MapperState) (phys size : Nat) : Nat × MapperState :=
  (phys, { m with maps := m.maps ++ [(phys, size)] })

/-- Record an `unmap` call. -/
def MapperState.unmapCall (m : MapperState) (virt size : Nat) : MapperState :=
  { m with unmaps := m.unmaps ++ [(virt, size)] }

namespace SpiDev

/-- The little-endian 64-bit PCIe ECAM base read from MCFG offset 0x2C. -/
def pcieBase (mcfg : List Nat) : Nat :=
  (mcfg.getD 0x2c 0) |||
  ((mcfg.getD 0x2d 0) <<< 8) |||
  ((mcfg.getD 0x2e 0) <<< 16) |||
  ((mcfg.getD 0x2f 0) <<< 24) |||
  ((mcfg.getD 0x30 0) <<< 32) |||
  ((mcfg.getD 0x31 0) <<< 40) |||
  ((mcfg.getD 0x32 0) <<< 48) |||
  ((mcfg.getD 0x33 0) <<< 56)

/-- Configuration-space physical address of bus 0, device 0x1F, function 5:
`pcie_base | (bus << 20) | (dev << 15) | (func << 12)`. -/
def pciePhys (mcfg : List Nat) : Nat :=
  pcieBase mcfg ||| (0x00 <<< 20) ||| (0x1F <<< 15) ||| (0x05 <<< 12)

/-- Vendor ID: little-endian 16-bit value at configuration-space offset 0,
read through the identity mapping of `pciePhys`. -/
def vendorId (mem : Nat → Nat) (mcfg : List Nat) : Nat :=
  (mem (pciePhys mcfg) % 256) ||| ((mem (pciePhys mcfg + 0x01) % 256) <<< 8)

/-- Product ID: little-endian 16-bit value at configuration-space offset 2. -/
def productId (mem : Nat → Nat) (mcfg : List Nat) : Nat :=
  (mem (pciePhys mcfg + 0x02) % 256) ||| ((mem (pciePhys mcfg + 0x03) % 256) <<< 8)

/-- BAR0: little-endian 32-bit value at configuration-space offset 0x10. -/
def bar0 (mem : Nat → Nat) (mcfg : List Nat) : Nat :=
  (mem (pciePhys mcfg + 0x10) % 256) |||
  ((mem (pciePhys mcfg + 0x11) % 256) <<< 8) |||
  ((mem (pciePhys mcfg + 0x12) % 256) <<< 16) |||
  ((mem (pciePhys mcfg + 0x13) % 256) <<< 24)

/-- The `mem::size_of::<SpiRegs>()`: the register file spans 0x00..0xD8. -/
def spiRegsSize : Nat := 0xD8

/-- The `SpiDev::new` from `lib.rs`: map the configuration-space page of
0:1F.5, read vendor/product, scan `PCI_IDS`, read BAR0 on a match, unmap
the page, then fail or map the register overlay at BAR0.  `mem` is physical
memory (one byte per address); the mapper is the recording identity mapper. -/
def new (mem : Nat → Nat) (mcfg : List Nat) (m : MapperState) :
    MapperState × Except String Nat :=
  let p := m.mapCall (pciePhys mcfg) 4096
  let pcie_virt := p.1
  let m := p.2
  let phys_opt :=
    if PCI_IDS.any (fun known_id =>
        known_id.1 == vendorId mem mcfg && known_id.2 == productId mem mcfg)
    then some (bar0 mem mcfg)
    else none
  let m := m.unmapCall pcie_virt 4096
  match phys_opt with
  | none => (m, Except.error "no supported SPI device found")
  | some phys =>
    let q := m.mapCall phys spiRegsSize
    (q.2, Except.ok q.1)

end SpiDev

/-- A hardware flash operation issued by the reconcile stage of `main.rs`. -/
inductive FlashOp where
  | erase (addr : Nat)
  | write (addr : Nat) (buf : List Nat)
deriving DecidableEq

/-- The sector scan of `main.rs` (lines 218-229): one pass over the zipped
current and new sector computing `matching` (every new byte equals the
current byte) and `erased` (every new byte equals the erase byte 0xFF). -/
def scanSector (chunk new_chunk : List Nat) : Bool × Bool :=
  (chunk.zip new_chunk).foldl
    (fun mb p => (mb.1 && (p.2 == p.1), mb.2 && (p.2 == 0xFF)))
    (true, true)

/-- The erase-and-write walk of `main.rs` (lines 215-246) as the list of
hardware operations it issues: sectors are visited in lock-step with the
running offset `i`; a matching sector is skipped, otherwise the sector is
erased and, unless the new sector is all-0xFF, written. -/
def reconcileOps : List (List Nat) → List (List Nat) → Nat → List FlashOp
  | chunk :: cs, new_chunk :: ns, i =>
    let s := scanSector chunk new_chunk
    (if s.1 then []
     else if s.2 then [FlashOp.erase i]
     else [FlashOp.erase i, FlashOp.write i new_chunk]) ++
    reconcileOps cs ns (i + chunk.length)
  | _, _, _ => []

/-- The `data.chunks(n)`: split a list into consecutive chunks of `n` elements,
the last chunk possibly shorter.  Empty for `n = 0`. -/
def chunksOf (n : Nat) (l : List α) : List (List α) :=
  match l with
  | [] => []
  | x :: xs =>
    if _h : n = 0 then []
    else (x :: xs).take n :: chunksOf n ((x :: xs).drop n)
termination_by l.length
decreasing_by
  simp only [List.length_drop, List.length_cons]
  omega

/-- Modelled flash semantics for one hardware operation: a block erase sets
the 4096 bytes at its address to 0xFF; a write programs bits from 1 to 0
only (NOR programming), over the length of its buffer. -/
def applyOp (flash : Nat → Nat) : FlashOp → (Nat → Nat)
  | FlashOp.erase a => fun x => if a ≤ x ∧ x < a + 4096 then 0xFF else flash x
  | FlashOp.write a buf => fun x =>
      if a ≤ x ∧ x < a + buf.length then flash x &&& buf.getD (x - a) 0 else flash x

/-- Run a list of flash operations in order. -/
def applyOps (flash : Nat → Nat) (ops : List FlashOp) : Nat → Nat :=
  ops.foldl applyOp flash

/-- An error-free read of `n` bytes of the device starting at address `a`
(what the read stage and the verify stage of `main.rs` obtain). -/
def readFrom (flash : Nat → Nat) (a n : Nat) : List Nat :=
  (List.range n).map (fun j => flash (a + j))

/-- The bit positions of FGO, FCYCLE, WET, FDBC and FSMIE: the bits
`HsfStsCtl::sanitize` clears. -/
def sanitizedBits : List Nat := [16, 17, 18, 19, 20, 21, 24, 25, 26, 27, 28, 29, 31]

/-- Projection: the byte list of a successful driver-call result. -/
def okBytes : Option (Device × Except SpiError (List Nat)) → Option (List Nat)
  | some (_, Except.ok l) => some l
  | _ => none

/-- Projection: the MMIO write log of a driver-call result. -/
def logOf (r : Option (Device × Except SpiError (List Nat))) : Option (List RegWrite) :=
  r.map (fun p => p.1.log)

/-- Projection: the FDATA register file of a driver-call result. -/
def fdataOf (r : Option (Device × Except SpiError (List Nat))) (i : Nat) : Option Nat :=
  r.map (fun p => p.1.fdata i)

/-- The S2 stub of the specification: a 64-byte flash holding bytes
`00, 01, …, 3F`, with the register file idle. -/
def s2Dev : Device :=
  { hsfsts := 0, faddr := 0, fdata := fun _ => 0, fdoc := 0, fdod := 0,
    flash := fun a => if a < 64 then a else 0xFF, failCycle := false, log := [] }

/-- The S3 stub of the specification: a device that asserts FCERR during
poll-complete. -/
def failDev : Device :=
  { hsfsts := 0, faddr := 0, fdata := fun _ => 0, fdoc := 0, fdod := 0,
    flash := fun _ => 0xFF, failCycle := true, log := [] }

/-- The S1 stub of the specification: FDOD programmed to return `0b011`. -/
def s1Dev : Device :=
  { hsfsts := 0, faddr := 0, fdata := fun _ => 0, fdoc := 0, fdod := 0b011,
    flash := fun _ => 0xFF, failCycle := false, log := [] }

/-- A concrete host mapper for exercising the derived `Mapper` methods. -/
def sampleMapper : Mapper :=
  { map_aligned := fun a _ => Except.ok (0x100000 + a),
    unmap_aligned := fun _ _ => Except.ok (),
    page_size := 4096 }

/-- A physical memory whose every byte is zero (no supported device). -/
def zeroMem : Nat → Nat := fun _ => 0

end IntelSpi

namespace IntelSpi

/-- The five `remove` calls of `sanitize` amount to a single and-mask:
`0x40C0FFFF` keeps everything except bits 16-21, 24-29 and 31. -/
theorem sanitize_eq_and (v : Nat) : HsfStsCtl.sanitize v = v &&& 0x40C0FFFF := by
  have hc : (HsfStsCtl.U32MASK ^^^ HsfStsCtl.FGO) &&&
      ((HsfStsCtl.U32MASK ^^^ HsfStsCtl.FCYCLE) &&&
        ((HsfStsCtl.U32MASK ^^^ HsfStsCtl.WET) &&&
          ((HsfStsCtl.U32MASK ^^^ HsfStsCtl.FDBC) &&&
            (HsfStsCtl.U32MASK ^^^ HsfStsCtl.FSMIE)))) = 0x40C0FFFF := by decide
  unfold HsfStsCtl.sanitize
  rw [Nat.and_assoc, Nat.and_assoc, Nat.and_assoc, Nat.and_assoc, hc]

/-- Sanitizing clears bit 16 (FGO), so writing a sanitized value back never
starts a cycle in the device model. -/
theorem sanitize_testBit_16 (v : Nat) : (HsfStsCtl.sanitize v).testBit 16 = false := by
  rw [sanitize_eq_and, Nat.testBit_and,
    (by decide : Nat.testBit 0x40C0FFFF 16 = false), Bool.and_false]

/-- Every bit position of FGO, FCYCLE, WET, FDBC or FSMIE reads zero after
`sanitize`. -/
theorem sanitize_testBit_cleared (v : Nat) (i : Nat) (h : i ∈ sanitizedBits) :
    (HsfStsCtl.sanitize v).testBit i = false := by
  rw [sanitize_eq_and, Nat.testBit_and]
  generalize v.testBit i = b
  fin_cases h <;> revert b <;> decide

/-- The `contains` with a single-bit flag is `testBit`. -/
theorem contains_one_shiftLeft (v k : Nat) :
    HsfStsCtl.contains v (1 <<< k) = v.testBit k := by
  unfold HsfStsCtl.contains
  have h1 : (1 : Nat) <<< k = 2 ^ k := by rw [Nat.shiftLeft_eq, one_mul]
  rw [h1, Nat.and_two_pow]
  cases hb : v.testBit k <;> simp [hb]
  exact fun hz => (Nat.two_pow_pos k).ne' hz.symm

/-- C1: the claim says `set_count(n)` stores `(min(n,64)-1) << 24` so that
`count()` returns `n` for `n ∈ [1,64]`.  The source instead computes
`cmp::max(value, 64)`: evaluating the code at `n = 3` on a zeroed register
stores `63 << 24` (the count-64 encoding), and `count()` reads back 64, not
3 — the inverted clamp flagged in the specification's design notes. -/
theorem set_count_code_observed :
    HsfStsCtl.set_count 0 3 = 63 <<< 24 ∧
    HsfStsCtl.count (HsfStsCtl.set_count 0 3) = 64 ∧
    HsfStsCtl.count (HsfStsCtl.set_count 0 3) ≠ 3 ∧
    HsfStsCtl.set_count 0 100 ≠ 63 <<< 24 := by decide

/-- C3: for every 32-bit HSFSTS_CTL value, `sanitize` clears exactly the
FGO (16), FCYCLE (17-20), WET (21), FDBC (24-29) and FSMIE (31) bits and
leaves every other bit — FDONE, FCERR, H_AEL, H_SCIP, WRSDIS, PRR34_LOCKDN,
FDOPSS, FDV, FLOCKDN and the reserved positions — unchanged. -/
theorem sanitize_frame (v : Nat) (hv : v < 2 ^ 32) (i : Nat) :
    (HsfStsCtl.sanitize v).testBit i =
      if (16 ≤ i ∧ i ≤ 21) ∨ (24 ≤ i ∧ i ≤ 29) ∨ i = 31 then false
      else v.testBit i := by
  rw [sanitize_eq_and, Nat.testBit_and]
  by_cases h32 : i < 32
  · generalize v.testBit i = b
    revert b
    interval_cases i <;> decide
  · have h1 : v.testBit i = false :=
      Nat.testBit_lt_two_pow
        (lt_of_lt_of_le hv (Nat.pow_le_pow_right (by norm_num) (by omega)))
    have h2 : Nat.testBit 0x40C0FFFF i = false :=
      Nat.testBit_lt_two_pow
        (lt_of_lt_of_le (show (0x40C0FFFF : Nat) < 2 ^ 32 by norm_num)
          (Nat.pow_le_pow_right (by norm_num) (by omega)))
    rw [h1, h2, if_neg (by omega)]
    rfl

/-- Witness for C3 at the all-ones register value and the FGO bit. -/
theorem sanitize_frame_witness :
    (HsfStsCtl.sanitize 0xFFFFFFFF).testBit 16 =
      if (16 ≤ 16 ∧ 16 ≤ 21) ∨ (24 ≤ 16 ∧ 16 ≤ 29) ∨ 16 = 31 then false
      else Nat.testBit 0xFFFFFFFF 16 :=
  sanitize_frame 0xFFFFFFFF (by decide) 16

/-- C7: `len` writes FDOC with the Component section selector at index 0,
reads FDOD, and returns 512 KiB shifted left by FDOD's low three bits; in
particular low bits `0b011` give 4194304 bytes.  The low three bits always
lie in the documented range 0-7, so the `Register` error clause of the
claim is vacuous (see C10). -/
theorem len_capacity (dev : Device) :
    (SpiRegs.len dev).1.fdoc = FdoSection.Component ||| (0 <<< 2) ∧
    (SpiRegs.len dev).2 = Except.ok ((512 * 1024) <<< (dev.fdod &&& 0b111)) ∧
    ((dev.fdod &&& 0b111) = 0b011 → (SpiRegs.len dev).2 = Except.ok 4194304) := by
  have h8 : dev.fdod &&& 0b111 < 8 := by
    simpa using Nat.and_lt_two_pow dev.fdod (show (0b111 : Nat) < 2 ^ 3 by norm_num)
  simp only [SpiRegs.len, SpiRegs.fdo]
  refine ⟨by decide, ?_, ?_⟩ <;>
    generalize hx : dev.fdod &&& 0b111 = x at h8 ⊢ <;>
    interval_cases x <;> simp

/-- Witness for C7's conditional clause at the S1 stub (FDOD = `0b011`). -/
theorem len_capacity_witness :
    (SpiRegs.len s1Dev).1.fdoc = FdoSection.Component ||| (0 <<< 2) ∧
    (SpiRegs.len s1Dev).2 = Except.ok ((512 * 1024) <<< (s1Dev.fdod &&& 0b111)) ∧
    ((s1Dev.fdod &&& 0b111) = 0b011 → (SpiRegs.len s1Dev).2 = Except.ok 4194304) :=
  len_capacity s1Dev

/-- C10: `len` is total over its error channel: the match on the low three
bits of FDOD covers all eight cases, so `len` always returns `Ok` and the
`Register` branch is unreachable. -/
theorem len_never_fails (dev : Device) :
    ∃ n, (SpiRegs.len dev).2 = Except.ok n := by
  have h8 : dev.fdod &&& 0b111 < 8 := by
    simpa using Nat.and_lt_two_pow dev.fdod (show (0b111 : Nat) < 2 ^ 3 by norm_num)
  simp only [SpiRegs.len, SpiRegs.fdo]
  generalize hx : dev.fdod &&& 0b111 = x at h8 ⊢
  interval_cases x <;> exact ⟨_, rfl⟩

end IntelSpi

namespace IntelSpi

/-- The within-page offset computed by the derived mapper methods equals
the physical address modulo the page size. -/
theorem sub_div_mul_eq_mod (a P : Nat) : a - a / P * P = a % P := by
  have h := Nat.div_add_mod a P
  have h2 : a / P * P = P * (a / P) := Nat.mul_comm _ _
  omega

/-- C9: the derived `Mapper::map` calls `map_aligned` with the physical
address rounded down to a page boundary and the size rounded up to whole
pages — `(floor(phys/P)*P, ceil((phys mod P + size)/P)*P)` — and on success
returns the aligned virtual address plus `phys mod P`; `map_aligned`
failures propagate unchanged, and `unmap` performs the same rounding before
forwarding to `unmap_aligned`. -/
theorem mapper_rounding (m : Mapper) (phys size vaddr vsize : Nat)
    (_hP : 0 < m.page_size) :
    (Mapper.map m phys size =
      match m.map_aligned (phys / m.page_size * m.page_size)
          ((phys % m.page_size + size + m.page_size - 1) / m.page_size * m.page_size) with
      | Except.error e => Except.error e
      | Except.ok v => Except.ok (v + phys % m.page_size)) ∧
    Mapper.unmap m vaddr vsize =
      m.unmap_aligned (vaddr / m.page_size * m.page_size)
        ((vaddr % m.page_size + vsize + m.page_size - 1) / m.page_size * m.page_size) := by
  constructor
  · simp only [Mapper.map]
    rw [sub_div_mul_eq_mod]
  · simp only [Mapper.unmap]
    rw [sub_div_mul_eq_mod]

/-- Witness for C9 at a concrete mapper and an unaligned physical range. -/
theorem mapper_rounding_witness :
    (Mapper.map sampleMapper 0x12345 10 =
      match sampleMapper.map_aligned (0x12345 / sampleMapper.page_size * sampleMapper.page_size)
          ((0x12345 % sampleMapper.page_size + 10 + sampleMapper.page_size - 1) /
            sampleMapper.page_size * sampleMapper.page_size) with
      | Except.error e => Except.error e
      | Except.ok v => Except.ok (v + 0x12345 % sampleMapper.page_size)) ∧
    Mapper.unmap sampleMapper 0x2468 20 =
      sampleMapper.unmap_aligned (0x2468 / sampleMapper.page_size * sampleMapper.page_size)
        ((0x2468 % sampleMapper.page_size + 20 + sampleMapper.page_size - 1) /
          sampleMapper.page_size * sampleMapper.page_size) :=
  mapper_rounding sampleMapper 0x12345 10 0x2468 20 (by decide)

/-- C8: when the vendor/product pair read from PCIe configuration space is
not in the `PCI_IDS` allow-list, the locator records the unmap of the
4 KiB configuration-space page before returning and fails with the
unsupported-device error (`"no supported SPI device found"`). -/
theorem locator_unsupported (mem : Nat → Nat) (mcfg : List Nat) (m : MapperState)
    (h : ∀ p ∈ PCI_IDS, ¬(p.1 = SpiDev.vendorId mem mcfg ∧ p.2 = SpiDev.productId mem mcfg)) :
    SpiDev.new mem mcfg m =
      ({ maps := m.maps ++ [(SpiDev.pciePhys mcfg, 4096)],
         unmaps := m.unmaps ++ [(SpiDev.pciePhys mcfg, 4096)] },
       Except.error ("no supported SPI device found")) := by
  have hany : PCI_IDS.any (fun known_id =>
      known_id.1 == SpiDev.vendorId mem mcfg && known_id.2 == SpiDev.productId mem mcfg)
      = false := by
    rw [List.any_eq_false]
    intro p hp
    simp only [Bool.and_eq_true, beq_iff_eq, not_and]
    intro h1 h2
    exact h p hp ⟨h1, h2⟩
  unfold SpiDev.new MapperState.mapCall MapperState.unmapCall
  rw [hany]
  rfl

/-- Witness for C8: all-zero configuration space (vendor 0, product 0) is
not allow-listed. -/
theorem locator_unsupported_witness :
    SpiDev.new zeroMem [] { maps := [], unmaps := [] } =
      ({ maps := [] ++ [(SpiDev.pciePhys [], 4096)],
         unmaps := [] ++ [(SpiDev.pciePhys [], 4096)] },
       Except.error ("no supported SPI device found")) :=
  locator_unsupported zeroMem [] { maps := [], unmaps := [] } (by decide)

end IntelSpi

namespace IntelSpi

/-- Writing a value with FGO clear just stores it (no cycle starts). -/
theorem set_hsfsts_ctl_store (dev : Device) (v : Nat) (hv : v.testBit 16 = false) :
    SpiRegs.set_hsfsts_ctl dev v =
      { dev with hsfsts := v, log := dev.log ++ [RegWrite.hsf v] } := by
  unfold SpiRegs.set_hsfsts_ctl
  simp [hv]

/-- Writing a value with FGO set to a failing device asserts FCERR and
clears FGO. -/
theorem set_hsfsts_ctl_fail (dev : Device) (v : Nat)
    (hv : v.testBit 16 = true) (hfail : dev.failCycle = true) :
    SpiRegs.set_hsfsts_ctl dev v =
      { dev with log := dev.log ++ [RegWrite.hsf v],
                 hsfsts := (v &&& (HsfStsCtl.U32MASK ^^^ HsfStsCtl.FGO)) ||| HsfStsCtl.FCERR } := by
  unfold SpiRegs.set_hsfsts_ctl execCycle
  simp [hv, hfail]

/-- An idle status register lets wait-idle exit on its first read. -/
theorem waitIdle_succ_of_idle (f : Nat) (dev : Device)
    (h : HsfStsCtl.contains (SpiRegs.hsfsts_ctl dev) HsfStsCtl.H_SCIP = false) :
    SpiRegs.waitIdle (f + 1) dev = some (SpiRegs.hsfsts_ctl dev) := by
  unfold SpiRegs.waitIdle
  simp [h]

/-- Poll-complete reports the error flag as soon as FCERR is observed. -/
theorem pollComplete_succ_of_fcerr (f : Nat) (dev : Device)
    (h : HsfStsCtl.contains (SpiRegs.hsfsts_ctl dev) HsfStsCtl.FCERR = true) :
    SpiRegs.pollComplete (f + 1) dev = some (SpiRegs.hsfsts_ctl dev, true) := by
  unfold SpiRegs.pollComplete
  simp [h]

/-- FCERR survives `from_bits_truncate` after the device asserts it. -/
theorem contains_truncate_fcerr (y : Nat) :
    HsfStsCtl.contains (HsfStsCtl.truncate (y ||| HsfStsCtl.FCERR)) HsfStsCtl.FCERR = true := by
  rw [show HsfStsCtl.FCERR = 1 <<< 1 from rfl, contains_one_shiftLeft]
  unfold HsfStsCtl.truncate
  simp [Nat.testBit_and, Nat.testBit_or,
    (by decide : Nat.testBit 2 1 = true),
    (by decide : Nat.testBit HsfStsCtl.DEFINED 1 = true)]

/-- Inserting FGO sets bit 16. -/
theorem insert_fgo_testBit_16 (v : Nat) :
    (HsfStsCtl.insert v HsfStsCtl.FGO).testBit 16 = true := by
  unfold HsfStsCtl.insert
  simp [Nat.testBit_or, (by decide : Nat.testBit HsfStsCtl.FGO 16 = true)]

/-- The FDATA fill loop touches neither HSFSTS_CTL nor the failure mode. -/
theorem fillChunk_proj (dev : Device) (chunk : List Nat) :
    (SpiRegs.fillChunk dev chunk).hsfsts = dev.hsfsts ∧
    (SpiRegs.fillChunk dev chunk).failCycle = dev.failCycle ∧
    (SpiRegs.fillChunk dev chunk).faddr = dev.faddr := by
  unfold SpiRegs.fillChunk
  generalize List.range ((chunk.length + 3) / 4) = l
  induction l generalizing dev with
  | nil => exact ⟨rfl, rfl, rfl⟩
  | cons a l ih =>
    simp only [List.foldl_cons]
    exact ih _

/-- The fill loop leaves HSFSTS_CTL unchanged. -/
theorem fillChunk_hsfsts (dev : Device) (chunk : List Nat) :
    (SpiRegs.fillChunk dev chunk).hsfsts = dev.hsfsts :=
  (fillChunk_proj dev chunk).1

/-- The fill loop leaves the failure mode unchanged. -/
theorem fillChunk_failCycle (dev : Device) (chunk : List Nat) :
    (SpiRegs.fillChunk dev chunk).failCycle = dev.failCycle :=
  (fillChunk_proj dev chunk).2.1

/-- The fill loop leaves FADDR unchanged. -/
theorem fillChunk_faddr (dev : Device) (chunk : List Nat) :
    (SpiRegs.fillChunk dev chunk).faddr = dev.faddr :=
  (fillChunk_proj dev chunk).2.2

end IntelSpi

namespace IntelSpi

/-- C4: whenever the poll-complete loop of a read, erase or write cycle
observes FCERR, the operation sanitizes the observed status word, writes it
back, and fails with the `Cycle` error; after the failed call the FGO,
FCYCLE, WET, FDBC and FSMIE bits of HSFSTS_CTL are all cleared.  The
FCERR observation is modelled by running against a device in failing mode
(scenario S3). -/
theorem cycle_error_clears_control (dev : Device) (addr n fuel : Nat) (buf : List Nat)
    (hfail : dev.failCycle = true)
    (hscip : HsfStsCtl.contains (SpiRegs.hsfsts_ctl dev) HsfStsCtl.H_SCIP = false)
    (hn : 0 < n) (hbuf : buf ≠ []) (hfuel : 0 < fuel) :
    (∃ d, SpiRegs.read fuel dev addr n = some (d, Except.error SpiError.Cycle) ∧
        ∀ i ∈ sanitizedBits, d.hsfsts.testBit i = false) ∧
    (∃ d, SpiRegs.erase fuel dev addr = some (d, Except.error SpiError.Cycle) ∧
        ∀ i ∈ sanitizedBits, d.hsfsts.testBit i = false) ∧
    (∃ d, SpiRegs.write fuel dev addr buf = some (d, Except.error SpiError.Cycle) ∧
        ∀ i ∈ sanitizedBits, d.hsfsts.testBit i = false) := by
  obtain ⟨f, rfl⟩ : ∃ f, fuel = f + 1 := ⟨fuel - 1, by omega⟩
  obtain ⟨m, rfl⟩ : ∃ m, n = m + 1 := ⟨n - 1, by omega⟩
  obtain ⟨b, rest, rfl⟩ : ∃ b rest, buf = b :: rest := by
    cases buf with
    | nil => exact absurd rfl hbuf
    | cons b r => exact ⟨b, r, rfl⟩
  refine ⟨?_, ?_, ?_⟩
  · simp only [SpiRegs.read, SpiRegs.readGo, Nat.succ_ne_zero, ite_false,
      waitIdle_succ_of_idle _ _ hscip, SpiRegs.set_faddr, SpiRegs.hsfsts_ctl,
      set_hsfsts_ctl_store, set_hsfsts_ctl_fail, sanitize_testBit_16,
      insert_fgo_testBit_16, pollComplete_succ_of_fcerr, contains_truncate_fcerr, hfail]
    refine ⟨_, rfl, ?_⟩
    intro i hi
    exact sanitize_testBit_cleared _ i hi
  · simp only [SpiRegs.erase, waitIdle_succ_of_idle _ _ hscip, SpiRegs.set_faddr,
      SpiRegs.hsfsts_ctl, set_hsfsts_ctl_store, set_hsfsts_ctl_fail, sanitize_testBit_16,
      insert_fgo_testBit_16, pollComplete_succ_of_fcerr, contains_truncate_fcerr, hfail]
    refine ⟨_, rfl, ?_⟩
    intro i hi
    exact sanitize_testBit_cleared _ i hi
  · simp only [SpiRegs.write, SpiRegs.writeGo, List.length_cons, Nat.succ_ne_zero, ite_false,
      waitIdle_succ_of_idle _ _ hscip, SpiRegs.set_faddr, SpiRegs.hsfsts_ctl,
      set_hsfsts_ctl_store, set_hsfsts_ctl_fail, sanitize_testBit_16,
      insert_fgo_testBit_16, pollComplete_succ_of_fcerr, contains_truncate_fcerr, hfail,
      fillChunk_hsfsts, fillChunk_failCycle, fillChunk_faddr]
    refine ⟨_, rfl, ?_⟩
    intro i hi
    exact sanitize_testBit_cleared _ i hi

/-- Witness for C4 at the S3 stub device, a 1-byte read, one erase and a
1-byte write. -/
theorem cycle_error_clears_control_witness :
    (∃ d, SpiRegs.read 1 failDev 0 1 = some (d, Except.error SpiError.Cycle) ∧
        ∀ i ∈ sanitizedBits, d.hsfsts.testBit i = false) ∧
    (∃ d, SpiRegs.erase 1 failDev 0 = some (d, Except.error SpiError.Cycle) ∧
        ∀ i ∈ sanitizedBits, d.hsfsts.testBit i = false) ∧
    (∃ d, SpiRegs.write 1 failDev 0 [0] = some (d, Except.error SpiError.Cycle) ∧
        ∀ i ∈ sanitizedBits, d.hsfsts.testBit i = false) :=
  cycle_error_clears_control failDev 0 1 1 [0] rfl (by decide) (by decide)
    (by decide) (by decide)

end IntelSpi

namespace IntelSpi

/-- C2: evaluating `read(0x20, buf[len=3])` on the S2 stub (64-byte flash
holding `00..3F`).  FADDR is programmed with 0x20, the committed control
word `0x3F010000` has FCYCLE = Read and FGO = 1, FDATA[0] reads
`0x23222120`, the buffer receives `[0x20, 0x21, 0x22]` and all three bytes
are returned — but, because of the inverted clamp in `set_count`, the FDBC
field of the committed word encodes count 64 (`63 << 24`), not the count 3
the claim requires. -/
theorem read_s2_observed :
    okBytes (SpiRegs.read 1 s2Dev 0x20 3) = some [0x20, 0x21, 0x22] ∧
    logOf (SpiRegs.read 1 s2Dev 0x20 3) = some
      [RegWrite.hsf 0, RegWrite.faddr 0x20, RegWrite.hsf 0x3F010000,
       RegWrite.hsf 0x00000001] ∧
    fdataOf (SpiRegs.read 1 s2Dev 0x20 3) 0 = some 0x23222120 ∧
    HsfStsCtl.cycle 0x3F010000 = HsfStsCtlCycle.Read ∧
    HsfStsCtl.contains 0x3F010000 HsfStsCtl.FGO = true ∧
    HsfStsCtl.count 0x3F010000 = 64 ∧
    HsfStsCtl.count 0x3F010000 ≠ 3 := by decide

end IntelSpi

namespace IntelSpi

/-- Unfolding the single-pass sector scan into its two `all` predicates. -/
theorem scan_foldl (l : List (Nat × Nat)) (a b : Bool) :
    l.foldl (fun mb p => (mb.1 && (p.2 == p.1), mb.2 && (p.2 == 0xFF))) (a, b)
      = (a && l.all (fun p => p.2 == p.1), b && l.all (fun p => p.2 == 0xFF)) := by
  induction l generalizing a b with
  | nil => simp
  | cons x xs ih =>
    simp only [List.foldl_cons, List.all_cons, ih, Bool.and_assoc]

/-- The `scanSector` computes the `matching` and `erased` predicates of the
reconcile walk as `all` over the zipped sectors. -/
theorem scanSector_eq (c n : List Nat) :
    scanSector c n =
      ((c.zip n).all (fun p => p.2 == p.1), (c.zip n).all (fun p => p.2 == 0xFF)) := by
  unfold scanSector
  rw [scan_foldl]
  simp

/-- Over equal-length sectors, the `matching` scan decides list equality. -/
theorem zip_all_eq_iff (c : List Nat) : ∀ (n : List Nat), c.length = n.length →
    (((c.zip n).all (fun p => p.2 == p.1) = true) ↔ c = n) := by
  induction c with
  | nil =>
    intro n h
    cases n with
    | nil => simp
    | cons y ys => simp at h
  | cons x xs ih =>
    intro n h
    cases n with
    | nil => simp at h
    | cons y ys =>
      have h2 : xs.length = ys.length := by simpa using h
      simp only [List.zip_cons_cons, List.all_cons, Bool.and_eq_true, beq_iff_eq,
        ih ys h2, List.cons.injEq]
      constructor
      · rintro ⟨h3, h4⟩
        exact ⟨h3.symm, h4⟩
      · rintro ⟨h3, h4⟩
        exact ⟨h3.symm, h4⟩

/-- Over equal-length sectors, the `erased` scan inspects every new byte. -/
theorem zip_all_ff (c : List Nat) : ∀ (n : List Nat), c.length = n.length →
    (c.zip n).all (fun p => p.2 == 0xFF) = n.all (fun b => b == 0xFF) := by
  induction c with
  | nil =>
    intro n h
    cases n with
    | nil => simp
    | cons y ys => simp at h
  | cons x xs ih =>
    intro n h
    cases n with
    | nil => simp at h
    | cons y ys =>
      have h2 : xs.length = ys.length := by simpa using h
      simp [List.zip_cons_cons, List.all_cons, ih ys h2]

/-- C5: the reconcile stage walks the 4 KiB sector pairs in lock-step; a
sector whose current bytes all equal the new bytes issues no operation, any
other sector issues exactly one erase at the sector address, followed by
exactly one write of the new sector unless every new byte is 0xFF. -/
theorem reconcile_sector_ops (cur nw : List Nat) (cs ns : List (List Nat)) (i : Nat)
    (hc : cur.length = 4096) (hn : nw.length = 4096) :
    reconcileOps (cur :: cs) (nw :: ns) i =
      (if cur = nw then []
       else if nw.all (fun b => b == 0xFF) then [FlashOp.erase i]
       else [FlashOp.erase i, FlashOp.write i nw]) ++ reconcileOps cs ns (i + 4096) := by
  have hlen : cur.length = nw.length := by rw [hc, hn]
  simp only [reconcileOps, scanSector_eq, hc]
  rw [zip_all_ff cur nw hlen]
  by_cases he : cur = nw
  · rw [if_pos ((zip_all_eq_iff cur nw hlen).mpr he), if_pos he]
  · have hf : ¬((cur.zip nw).all (fun p => p.2 == p.1) = true) :=
      fun hb => he ((zip_all_eq_iff cur nw hlen).mp hb)
    rw [if_neg hf, if_neg he]

/-- Witness for C5: an `AA`-filled device sector against an all-`FF` new
sector at address 0x1000 (scenario S5's shape). -/
theorem reconcile_sector_ops_witness :
    reconcileOps [List.replicate 4096 0xAA] [List.replicate 4096 0xFF] 0x1000 =
      (if List.replicate 4096 0xAA = List.replicate 4096 0xFF then []
       else if (List.replicate 4096 0xFF).all (fun b => b == 0xFF) then
         [FlashOp.erase 0x1000]
       else [FlashOp.erase 0x1000, FlashOp.write 0x1000 (List.replicate 4096 0xFF)]) ++
      reconcileOps [] [] (0x1000 + 4096) :=
  reconcile_sector_ops (List.replicate 4096 0xAA) (List.replicate 4096 0xFF) [] [] 0x1000
    (List.length_replicate _ _) (List.length_replicate _ _)

end IntelSpi

namespace IntelSpi

theorem applyOps_append (f : Nat → Nat) (a b : List FlashOp) :
    applyOps f (a ++ b) = applyOps (applyOps f a) b := by
  unfold applyOps
  rw [List.foldl_append]

theorem readFrom_length (f : Nat → Nat) (a n : Nat) : (readFrom f a n).length = n := by
  simp [readFrom]

theorem readFrom_add (f : Nat → Nat) (a m n : Nat) :
    readFrom f a (m + n) = readFrom f a m ++ readFrom f (a + m) n := by
  unfold readFrom
  rw [List.range_add, List.map_append, List.map_map]
  congr 1
  apply List.map_congr_left
  intro j hj
  simp [Function.comp, Nat.add_assoc]

theorem readFrom_congr (f g : Nat → Nat) (a n : Nat)
    (h : ∀ x, a ≤ x → x < a + n → f x = g x) :
    readFrom f a n = readFrom g a n := by
  unfold readFrom
  apply List.map_congr_left
  intro j hj
  exact h (a + j) (Nat.le_add_right _ _) (by have := List.mem_range.mp hj; omega)

theorem readFrom_getElem (f : Nat → Nat) (a n j : Nat)
    (h1 : j < (readFrom f a n).length) : (readFrom f a n)[j] = f (a + j) := by
  simp [readFrom]

theorem chunksOf_cons (n : Nat) (l : List α) (hn : n ≠ 0) (hl : l ≠ []) :
    chunksOf n l = l.take n :: chunksOf n (l.drop n) := by
  cases l with
  | nil => exact absurd rfl hl
  | cons x xs =>
    rw [chunksOf]
    rw [dif_neg hn]

theorem land_ff (b : Nat) (hb : b < 256) : 0xFF &&& b = b := by
  rw [Nat.and_comm]
  have hb2 : b < 2 ^ 8 := by simpa using hb
  have h := Nat.and_pow_two_sub_one_of_lt_two_pow hb2
  simpa using h

theorem applyOps_reconcile_lt (cs : List (List Nat)) :
    ∀ (ns : List (List Nat)) (i : Nat) (f : Nat → Nat) (x : Nat), x < i →
    applyOps f (reconcileOps cs ns i) x = f x := by
  induction cs with
  | nil => intro ns i f x hx; rfl
  | cons c cs ih =>
    intro ns i f x hx
    cases ns with
    | nil => rfl
    | cons n ns =>
      simp only [reconcileOps]
      rw [applyOps_append]
      rw [ih ns (i + c.length) _ x (by omega)]
      split_ifs with h1 h2
      · rfl
      · simp only [applyOps, List.foldl_cons, List.foldl_nil, applyOp]
        rw [if_neg (by omega)]
      · simp only [applyOps, List.foldl_cons, List.foldl_nil, applyOp]
        rw [if_neg (by omega), if_neg (by omega)]

theorem reconcileOps_cons (c n : List Nat) (cs ns : List (List Nat)) (i : Nat) :
    reconcileOps (c :: cs) (n :: ns) i =
      reconcileOps [c] [n] i ++ reconcileOps cs ns (i + c.length) := by
  simp [reconcileOps]

theorem sector_ops_outside (f : Nat → Nat) (c n : List Nat) (i x : Nat)
    (hn : n.length = 4096) (hx : x < i ∨ i + 4096 ≤ x) :
    applyOps f (reconcileOps [c] [n] i) x = f x := by
  simp only [reconcileOps, List.append_nil]
  split_ifs with h1 h2
  · rfl
  · simp only [applyOps, List.foldl_cons, List.foldl_nil, applyOp]
    rw [if_neg (by omega)]
  · simp only [applyOps, List.foldl_cons, List.foldl_nil, applyOp]
    rw [if_neg (by rw [hn]; omega), if_neg (by omega)]

end IntelSpi

namespace IntelSpi

theorem sector_value (f : Nat → Nat) (n : List Nat) (i : Nat)
    (hn : n.length = 4096) (hb : ∀ b ∈ n, b < 256) (c : List Nat)
    (hc : c = readFrom f i 4096) :
    readFrom (applyOps f (reconcileOps [c] [n] i)) i 4096 = n := by
  have hclen : c.length = 4096 := by rw [hc]; exact readFrom_length f i 4096
  have hlen : c.length = n.length := by rw [hclen, hn]
  simp only [reconcileOps, List.append_nil, scanSector_eq]
  rw [zip_all_ff c n hlen]
  by_cases hm : c = n
  · rw [if_pos ((zip_all_eq_iff c n hlen).mpr hm)]
    simp only [applyOps, List.foldl_nil]
    rw [← hc, hm]
  · have hf : ¬((c.zip n).all (fun p => p.2 == p.1) = true) :=
      fun hball => hm ((zip_all_eq_iff c n hlen).mp hball)
    rw [if_neg hf]
    by_cases hef : n.all (fun b => b == 0xFF)
    · rw [if_pos hef]
      apply List.ext_getElem
      · rw [readFrom_length, hn]
      · intro j h1 h2
        rw [readFrom_length] at h1
        rw [readFrom_getElem _ _ _ _ (by rw [readFrom_length]; exact h1)]
        simp only [applyOps, List.foldl_cons, List.foldl_nil, applyOp]
        rw [if_pos (by omega)]
        have hj255 : n[j] = 0xFF := by
          have hx := List.all_eq_true.mp hef _ (List.getElem_mem h2)
          simpa using hx
        exact hj255.symm
    · rw [if_neg hef]
      apply List.ext_getElem
      · rw [readFrom_length, hn]
      · intro j h1 h2
        rw [readFrom_length] at h1
        rw [readFrom_getElem _ _ _ _ (by rw [readFrom_length]; exact h1)]
        simp only [applyOps, List.foldl_cons, List.foldl_nil, applyOp]
        rw [if_pos (by rw [hn]; omega)]
        rw [if_pos (by omega)]
        have hij : i + j - i = j := by omega
        rw [hij]
        have hgd : n.getD j 0 = n[j] := by
          rw [List.getD_eq_getElem?_getD, List.getElem?_eq_getElem h2]
          rfl
        rw [hgd]
        exact land_ff _ (hb _ (List.getElem_mem h2))

end IntelSpi

namespace IntelSpi

theorem chunksOf_nil (n : Nat) : chunksOf n ([] : List α) = [] := by
  rw [chunksOf]

theorem reconcile_run (k : Nat) : ∀ (f : Nat → Nat) (nw : List Nat) (i : Nat),
    nw.length = 4096 * k → (∀ b ∈ nw, b < 256) →
    readFrom (applyOps f (reconcileOps (chunksOf 4096 (readFrom f i (4096 * k)))
        (chunksOf 4096 nw) i)) i (4096 * k) = nw := by
  induction k with
  | zero =>
    intro f nw i hlen hb
    have hnil : nw = [] := List.length_eq_zero.mp (by simpa using hlen)
    subst hnil
    simp only [Nat.mul_zero]
    have hr0 : readFrom f i 0 = [] := rfl
    rw [hr0, chunksOf_nil]
    rfl
  | succ k ih =>
    intro f nw i hlen hb
    have h1 : 4096 * (k + 1) = 4096 + 4096 * k := by ring
    have htl : (nw.take 4096).length = 4096 := by
      rw [List.length_take]
      omega
    have hdl : (nw.drop 4096).length = 4096 * k := by
      rw [List.length_drop]
      omega
    have hcur : readFrom f i (4096 * (k + 1)) =
        readFrom f i 4096 ++ readFrom f (i + 4096) (4096 * k) := by
      rw [h1, readFrom_add]
    have hcne : readFrom f i 4096 ++ readFrom f (i + 4096) (4096 * k) ≠ [] := by
      intro h
      have hlen2 := congrArg List.length h
      rw [List.length_append, readFrom_length, readFrom_length] at hlen2
      simp at hlen2
    have hchc : chunksOf 4096 (readFrom f i (4096 * (k + 1))) =
        readFrom f i 4096 :: chunksOf 4096 (readFrom f (i + 4096) (4096 * k)) := by
      rw [hcur, chunksOf_cons 4096 _ (by norm_num) hcne,
        List.take_left' (readFrom_length f i 4096),
        List.drop_left' (readFrom_length f i 4096)]
    have hnne : nw ≠ [] := by
      intro h
      rw [h] at hlen
      simp at hlen
    have hchn : chunksOf 4096 nw = nw.take 4096 :: chunksOf 4096 (nw.drop 4096) :=
      chunksOf_cons 4096 nw (by norm_num) hnne
    rw [hchc, hchn, reconcileOps_cons, readFrom_length]
    rw [h1, readFrom_add, applyOps_append]
    have hout : ∀ x, i + 4096 ≤ x →
        applyOps f (reconcileOps [readFrom f i 4096] [nw.take 4096] i) x = f x :=
      fun x hx => sector_ops_outside f _ _ i x htl (Or.inr hx)
    have hpart1 : readFrom
        (applyOps (applyOps f (reconcileOps [readFrom f i 4096] [nw.take 4096] i))
          (reconcileOps (chunksOf 4096 (readFrom f (i + 4096) (4096 * k)))
            (chunksOf 4096 (nw.drop 4096)) (i + 4096))) i 4096
        = readFrom (applyOps f (reconcileOps [readFrom f i 4096] [nw.take 4096] i)) i 4096 :=
      readFrom_congr _ _ _ _ (fun x hx1 hx2 => applyOps_reconcile_lt _ _ _ _ _ (by omega))
    have hpart2 : readFrom (applyOps f (reconcileOps [readFrom f i 4096] [nw.take 4096] i)) i 4096
        = nw.take 4096 :=
      sector_value f (nw.take 4096) i htl (fun b hbm => hb b (List.mem_of_mem_take hbm)) _ rfl
    have hgf : readFrom f (i + 4096) (4096 * k) =
        readFrom (applyOps f (reconcileOps [readFrom f i 4096] [nw.take 4096] i))
          (i + 4096) (4096 * k) :=
      readFrom_congr _ _ _ _ (fun x hx1 hx2 => (hout x hx1).symm)
    have hih := ih (applyOps f (reconcileOps [readFrom f i 4096] [nw.take 4096] i))
      (nw.drop 4096) (i + 4096) hdl (fun b hbm => hb b (List.mem_of_mem_drop hbm))
    rw [← hgf] at hih
    rw [hpart1, hpart2, hih, List.take_append_drop]

end IntelSpi

namespace IntelSpi

/-- C6: round-trip law of the reconcile stage.  For every device flash and
every new image whose length is the device capacity (a multiple of the
4 KiB sector size) with byte-sized entries, running the erase-and-write
walk of `main.rs` over the freshly read current image and then re-reading
the device yields exactly the new image — under the modelled error-free
flash semantics of `applyOp` (erase to 0xFF, program bits 1→0 only). -/
theorem reconcile_roundtrip (f : Nat → Nat) (nw : List Nat) (k : Nat)
    (hlen : nw.length = 4096 * k) (hb : ∀ b ∈ nw, b < 256) :
    readFrom (applyOps f (reconcileOps (chunksOf 4096 (readFrom f 0 nw.length))
        (chunksOf 4096 nw) 0)) 0 nw.length = nw := by
  rw [hlen]
  exact reconcile_run k f nw 0 hlen hb

/-- Witness for C6: a zeroed one-sector flash reconciled to the constant-7
image reads back as the constant-7 image. -/
theorem reconcile_roundtrip_witness :
    readFrom (applyOps zeroMem
        (reconcileOps (chunksOf 4096 (readFrom zeroMem 0 (List.replicate 4096 7).length))
          (chunksOf 4096 (List.replicate 4096 7)) 0)) 0 (List.replicate 4096 7).length
      = List.replicate 4096 7 :=
  reconcile_roundtrip zeroMem (List.replicate 4096 7) 1
    (by rw [List.length_replicate])
    (fun b hbm => by rw [List.eq_of_mem_replicate hbm]; norm_num)

end IntelSpi
